import Mathlib

/-!
Verification of `position_steps.py`: a script that drives a motor
controller through discrete position steps and logs telemetry to a CSV
file.  Times and positions are modelled as exact rationals; the external
controller, the wall clock and the output file are modelled as an
environment supplying the sampled elapsed times and the (possibly
failing) result of each external call.
-/

namespace PositionSteps

/-- `STEP_TIME_S = 2.0` from the source (line 60). -/
def STEP_TIME_S : ℚ := 2

/-- `STEP_DIVISIONS = 6` from the source (line 61; an integer in the
code, only ever used in exact arithmetic, so kept as a rational). -/
def STEP_DIVISIONS : ℚ := 6

/-- The loop exit threshold `STEP_TIME_S * (STEP_DIVISIONS + 1)`
(line 68). -/
def stopThreshold : ℚ := STEP_TIME_S * (STEP_DIVISIONS + 1)

/-- `desired_position = math.floor(offset_s / STEP_TIME_S) / STEP_DIVISIONS`
(line 75). -/
def desired_position (offset_s : ℚ) : ℚ :=
  (⌊offset_s / STEP_TIME_S⌋ : ℚ) / STEP_DIVISIONS

/-- The telemetry snapshot returned by `c.set_position(..., query=True)`:
the five registers the script reads (`POSITION`, `VELOCITY`, `TORQUE`,
`MODE`, `FAULT`, lines 85-89). -/
structure Telemetry where
  position : ℚ
  velocity : ℚ
  torque : ℚ
  mode : ℚ
  fault : ℚ
deriving Repr, DecidableEq

/-- A device command issued by the script: `set_stop`, `set_rezero`, or
`set_position` with its numeric keyword arguments. -/
inductive Cmd where
  | stop
  | rezero
  | setPosition (position accel_limit velocity_limit : ℚ)
deriving Repr, DecidableEq

/-- The environment of one run: the sampled elapsed times
`offsets i = time.time() - start_s` seen at loop iteration `i`, and the
result of every external call, each of which may raise
(`Except.error`). -/
structure Env (E : Type) where
  offsets : ℕ → ℚ
  openOut : Except E Unit
  writeHeader : Except E Unit
  initStop : Except E Unit
  rezero : Except E Unit
  setPos : ℕ → Except E Telemetry
  writeRow : ℕ → Except E Unit
  finalStop : Except E Unit

/-- The `fieldnames` list passed to `csv.DictWriter` (lines 37-45). -/
def fieldnames : List String :=
  ["time", "desired_position", "position", "velocity", "torque", "mode", "fault"]

/-- The row dictionary built at lines 91-99, as an association list in
the insertion order of the Python dict literal. -/
def rowDict (offset_s dp : ℚ) (st : Telemetry) : List (String × ℚ) :=
  [("time", offset_s), ("desired_position", dp), ("position", st.position),
   ("velocity", st.velocity), ("torque", st.torque), ("mode", st.mode),
   ("fault", st.fault)]

/-- `csv.DictWriter.writerow`: the emitted row lists the dict values in
the order of `fieldnames`, regardless of the order of the dict itself. -/
def dictWriterRow (fields : List String) (d : List (String × ℚ)) : List (Option ℚ) :=
  fields.map fun f => (d.find? fun p => p.1 == f).map (fun p => p.2)

/-- How a run of the loop ends: normal break after the final `set_stop`
(`stopped`), an exception propagating out (`error`), or fuel exhaustion
(an artifact of the embedding, never reached with enough fuel). -/
inductive Outcome (E : Type) where
  | stopped
  | error (e : E)
  | fuelOut
deriving Repr, DecidableEq

/-- What a run of the `while True:` loop produces: the CSV data rows
written, the device commands issued, and how it ended. -/
structure LoopOut (E : Type) where
  rows : List (List (Option ℚ))
  cmds : List Cmd
  outcome : Outcome E
deriving Repr, DecidableEq

/-- The CSV row contents of loop iteration `j`, assuming `set_position`
succeeded there (the `[]` branch is never used under that
assumption). -/
def rowOf {E : Type} (env : Env E) (j : ℕ) : List (Option ℚ) :=
  match env.setPos j with
  | .ok st =>
      dictWriterRow fieldnames
        (rowDict (env.offsets j) (desired_position (env.offsets j)) st)
  | .error _ => []

/-- The `while True:` loop of `main` (lines 63-105), starting at loop
index `i` with `fuel` iterations of budget.  Each iteration samples
`offset_s`; once `offset_s` exceeds the threshold it calls `set_stop`
and breaks; otherwise it sends `set_position(position=desired_position,
accel_limit=2.0, velocity_limit=5.0, query=True)`, reads the telemetry
and writes one CSV row.  An `Except.error` from any external call aborts
the run at that point, mirroring an uncaught Python exception. -/
def loop {E : Type} (env : Env E) : ℕ → ℕ → LoopOut E
  | _, 0 => ⟨[], [], .fuelOut⟩
  | i, fuel + 1 =>
    let offset_s := env.offsets i
    if stopThreshold < offset_s then
      match env.finalStop with
      | .error e => ⟨[], [.stop], .error e⟩
      | .ok _ => ⟨[], [.stop], .stopped⟩
    else
      let dp := desired_position offset_s
      match env.setPos i with
      | .error e => ⟨[], [.setPosition dp 2 5], .error e⟩
      | .ok st =>
        match env.writeRow i with
        | .error e => ⟨[], [.setPosition dp 2 5], .error e⟩
        | .ok _ =>
          let row := dictWriterRow fieldnames (rowDict offset_s dp st)
          let rest := loop env (i + 1) fuel
          ⟨row :: rest.rows, .setPosition dp 2 5 :: rest.cmds, rest.outcome⟩

/-- The observable output of `main`: the CSV header (if it was written),
the data rows, the device commands issued, and the outcome. -/
structure MainOut (E : Type) where
  headerOut : Option (List String)
  rows : List (List (Option ℚ))
  cmds : List Cmd
  outcome : Outcome E
deriving Repr, DecidableEq

/-- `main` (lines 30-105): parses arguments, opens the output file,
writes the CSV header, issues `set_stop` and `set_rezero` (each of which
may raise), then runs the loop. -/
def mainRun {E : Type} (env : Env E) (fuel : ℕ) : MainOut E :=
  match env.openOut with
  | .error e => ⟨none, [], [], .error e⟩
  | .ok _ =>
    match env.writeHeader with
    | .error e => ⟨none, [], [], .error e⟩
    | .ok _ =>
      match env.initStop with
      | .error e => ⟨some fieldnames, [], [.stop], .error e⟩
      | .ok _ =>
        match env.rezero with
        | .error e => ⟨some fieldnames, [], [.stop, .rezero], .error e⟩
        | .ok _ =>
          let r := loop env 0 fuel
          ⟨some fieldnames, r.rows, .stop :: .rezero :: r.cmds, r.outcome⟩

/-- The CSV rows written by loop iterations `i, i+1, ..., i+n-1`. -/
def rowsFrom {E : Type} (env : Env E) (i n : ℕ) : List (List (Option ℚ)) :=
  (List.range n).map fun j => rowOf env (i + j)

/-- The `set_position` commands issued by iterations `i, ..., i+n-1`. -/
def cmdsFrom {E : Type} (env : Env E) (i n : ℕ) : List Cmd :=
  (List.range n).map fun j =>
    Cmd.setPosition (desired_position (env.offsets (i + j))) 2 5

/-- The positions of the `set_position` commands in a command trace. -/
def setpoints (l : List Cmd) : List ℚ :=
  l.filterMap fun c =>
    match c with
    | .setPosition p _ _ => some p
    | _ => none

/-- The argument specification that `main` registers on its
`argparse.ArgumentParser`: option strings and default value. -/
structure ArgSpec where
  strings : List String
  defaultValue : Option String
deriving Repr, DecidableEq

/-- The single `add_argument` call (lines 32-33). -/
def argumentSpecs : List ArgSpec :=
  [⟨["--output", "-o"], some "data.csv"⟩]

/-- Scan an argument vector for a value following `--output` or `-o`. -/
def lookupFlag : List String → Option String
  | a :: v :: rest =>
      if a = "--output" ∨ a = "-o" then some v else lookupFlag (v :: rest)
  | _ => none

/-- The output path `args.output` used by `main`: the flag value if
present, otherwise the declared default value. -/
def parseOutput (argv : List String) : String :=
  match lookupFlag argv with
  | some v => v
  | none => "data.csv"

/-- An error-free environment whose clock jumps by 20 seconds per
iteration; used to exercise the theorems on concrete runs. -/
def envW : Env Unit where
  offsets := fun i => 20 * (i : ℚ)
  openOut := .ok ()
  writeHeader := .ok ()
  initStop := .ok ()
  rezero := .ok ()
  setPos := fun _ => .ok ⟨0, 0, 0, 0, 0⟩
  writeRow := fun _ => .ok ()
  finalStop := .ok ()

/-- An error-free environment sampling `0, 2, 4, ..., 12, 14, 15, ...`:
it lands in every step interval and also samples the exact threshold
time `14`. -/
def envBoundary : Env Unit where
  offsets := fun i => if i < 8 then 2 * (i : ℚ) else 15
  openOut := .ok ()
  writeHeader := .ok ()
  initStop := .ok ()
  rezero := .ok ()
  setPos := fun _ => .ok ⟨0, 0, 0, 0, 0⟩
  writeRow := fun _ => .ok ()
  finalStop := .ok ()

/-- An error-free environment sampling `0, 2, 4, ..., 12, 15, ...`: it
lands once in every step interval and never samples the threshold time
itself. -/
def envPlateau : Env Unit where
  offsets := fun i => if i < 7 then 2 * (i : ℚ) else 15
  openOut := .ok ()
  writeHeader := .ok ()
  initStop := .ok ()
  rezero := .ok ()
  setPos := fun _ => .ok ⟨0, 0, 0, 0, 0⟩
  writeRow := fun _ => .ok ()
  finalStop := .ok ()

/-- An environment whose very first `set_position` call raises. -/
def envFail : Env Unit where
  offsets := fun i => 20 * (i : ℚ)
  openOut := .ok ()
  writeHeader := .ok ()
  initStop := .ok ()
  rezero := .ok ()
  setPos := fun _ => .error ()
  writeRow := fun _ => .ok ()
  finalStop := .ok ()

/-! ## General lemmas about the embedded program -/

/-- `DictWriter` lays out the dict built at lines 91-99 in the order of
`fieldnames`. -/
theorem dictWriterRow_rowDict (t dp : ℚ) (st : Telemetry) :
    dictWriterRow fieldnames (rowDict t dp st) =
      [some t, some dp, some st.position, some st.velocity, some st.torque,
       some st.mode, some st.fault] := rfl

theorem rowsFrom_zero {E : Type} (env : Env E) (i : ℕ) : rowsFrom env i 0 = [] := rfl

theorem cmdsFrom_zero {E : Type} (env : Env E) (i : ℕ) : cmdsFrom env i 0 = [] := rfl

theorem rowsFrom_succ {E : Type} (env : Env E) (i n : ℕ) :
    rowsFrom env i (n + 1) = rowOf env i :: rowsFrom env (i + 1) n := by
  simp only [rowsFrom, List.range_succ_eq_map, List.map_cons, List.map_map, Nat.add_zero]
  congr 1
  exact List.map_congr_left fun j _ => by simp only [Function.comp_apply]; congr 1; omega

theorem cmdsFrom_succ {E : Type} (env : Env E) (i n : ℕ) :
    cmdsFrom env i (n + 1) =
      Cmd.setPosition (desired_position (env.offsets i)) 2 5 :: cmdsFrom env (i + 1) n := by
  simp only [cmdsFrom, List.range_succ_eq_map, List.map_cons, List.map_map, Nat.add_zero]
  congr 1
  exact List.map_congr_left fun j _ => by simp only [Function.comp_apply]; congr 3; omega

/-- Characterisation of an error-free run: if the clock stays at or below
the threshold for `n` iterations, every device and file call succeeds,
and iteration `n` samples a time beyond the threshold, the loop performs
exactly `n` command/row iterations followed by the final `set_stop`. -/
theorem loop_run_eq {E : Type} (env : Env E) :
    ∀ (n i fuel : ℕ),
      (∀ j, j < n → env.offsets (i + j) ≤ stopThreshold) →
      (∀ j, j < n → ∃ st, env.setPos (i + j) = .ok st) →
      (∀ j, j < n → env.writeRow (i + j) = .ok ()) →
      stopThreshold < env.offsets (i + n) →
      env.finalStop = .ok () →
      n < fuel →
      loop env i fuel = ⟨rowsFrom env i n, cmdsFrom env i n ++ [Cmd.stop], .stopped⟩ := by
  intro n
  induction n with
  | zero =>
    intro i fuel _ _ _ hgt hstop hfuel
    obtain ⟨f, rfl⟩ : ∃ f, fuel = f + 1 := ⟨fuel - 1, by omega⟩
    rw [loop]
    rw [if_pos (by simpa using hgt), hstop]
    simp [rowsFrom_zero, cmdsFrom_zero]
  | succ n ih =>
    intro i fuel hle hok hw hgt hstop hfuel
    obtain ⟨f, rfl⟩ : ∃ f, fuel = f + 1 := ⟨fuel - 1, by omega⟩
    have h0 : env.offsets i ≤ stopThreshold := by simpa using hle 0 (by omega)
    obtain ⟨st, hst⟩ := hok 0 (by omega)
    have hw0 : env.writeRow i = .ok () := by simpa using hw 0 (by omega)
    rw [loop]
    rw [if_neg (by simpa using not_lt.2 h0)]
    rw [show env.setPos i = .ok st from by simpa using hst, hw0]
    have hrec := ih (i + 1) f
      (fun j hj => by
        have h := hle (j + 1) (by omega)
        have e : i + (j + 1) = i + 1 + j := by omega
        rwa [e] at h)
      (fun j hj => by
        have h := hok (j + 1) (by omega)
        have e : i + (j + 1) = i + 1 + j := by omega
        rwa [e] at h)
      (fun j hj => by
        have h := hw (j + 1) (by omega)
        have e : i + (j + 1) = i + 1 + j := by omega
        rwa [e] at h)
      (by
        have e : i + (n + 1) = i + 1 + n := by omega
        rwa [e] at hgt)
      hstop (by omega)
    rw [hrec]
    rw [rowsFrom_succ, cmdsFrom_succ]
    simp only [rowOf, show env.setPos i = .ok st from by simpa using hst]
    rfl

/-- If the `set_position` of iteration `k` raises, the loop aborts with
that error after having written exactly the first `k` rows. -/
theorem loop_setPosError_eq {E : Type} (env : Env E) :
    ∀ (k i fuel : ℕ) (e : E),
      (∀ j, j ≤ k → env.offsets (i + j) ≤ stopThreshold) →
      (∀ j, j < k → ∃ st, env.setPos (i + j) = .ok st) →
      (∀ j, j < k → env.writeRow (i + j) = .ok ()) →
      env.setPos (i + k) = .error e →
      k < fuel →
      loop env i fuel = ⟨rowsFrom env i k,
        cmdsFrom env i k ++
          [Cmd.setPosition (desired_position (env.offsets (i + k))) 2 5],
        .error e⟩ := by
  intro k
  induction k with
  | zero =>
    intro i fuel e hle _ _ herr hfuel
    obtain ⟨f, rfl⟩ : ∃ f, fuel = f + 1 := ⟨fuel - 1, by omega⟩
    have h0 : env.offsets i ≤ stopThreshold := by simpa using hle 0 (by omega)
    rw [loop]
    rw [if_neg (by simpa using not_lt.2 h0)]
    rw [show env.setPos i = .error e from by simpa using herr]
    simp [rowsFrom_zero, cmdsFrom_zero]
  | succ k ih =>
    intro i fuel e hle hok hw herr hfuel
    obtain ⟨f, rfl⟩ : ∃ f, fuel = f + 1 := ⟨fuel - 1, by omega⟩
    have h0 : env.offsets i ≤ stopThreshold := by simpa using hle 0 (by omega)
    obtain ⟨st, hst⟩ := hok 0 (by omega)
    have hw0 : env.writeRow i = .ok () := by simpa using hw 0 (by omega)
    rw [loop]
    rw [if_neg (by simpa using not_lt.2 h0)]
    rw [show env.setPos i = .ok st from by simpa using hst, hw0]
    have hrec := ih (i + 1) f e
      (fun j hj => by
        have h := hle (j + 1) (by omega)
        have hi : i + (j + 1) = i + 1 + j := by omega
        rwa [hi] at h)
      (fun j hj => by
        have h := hok (j + 1) (by omega)
        have hi : i + (j + 1) = i + 1 + j := by omega
        rwa [hi] at h)
      (fun j hj => by
        have h := hw (j + 1) (by omega)
        have hi : i + (j + 1) = i + 1 + j := by omega
        rwa [hi] at h)
      (by
        have hi : i + (k + 1) = i + 1 + k := by omega
        rwa [hi] at herr)
      (by omega)
    rw [hrec]
    rw [rowsFrom_succ, cmdsFrom_succ]
    simp only [rowOf, show env.setPos i = .ok st from by simpa using hst]
    have hi : i + 1 + k = i + (k + 1) := by omega
    simp [hi]

/-- If the row write of iteration `k` raises, the loop aborts with that
error after having written exactly the first `k` rows. -/
theorem loop_writeRowError_eq {E : Type} (env : Env E) :
    ∀ (k i fuel : ℕ) (e : E),
      (∀ j, j ≤ k → env.offsets (i + j) ≤ stopThreshold) →
      (∀ j, j ≤ k → ∃ st, env.setPos (i + j) = .ok st) →
      (∀ j, j < k → env.writeRow (i + j) = .ok ()) →
      env.writeRow (i + k) = .error e →
      k < fuel →
      loop env i fuel = ⟨rowsFrom env i k,
        cmdsFrom env i k ++
          [Cmd.setPosition (desired_position (env.offsets (i + k))) 2 5],
        .error e⟩ := by
  intro k
  induction k with
  | zero =>
    intro i fuel e hle hok _ herr hfuel
    obtain ⟨f, rfl⟩ : ∃ f, fuel = f + 1 := ⟨fuel - 1, by omega⟩
    have h0 : env.offsets i ≤ stopThreshold := by simpa using hle 0 (by omega)
    obtain ⟨st, hst⟩ := hok 0 (by omega)
    rw [loop]
    rw [if_neg (by simpa using not_lt.2 h0)]
    rw [show env.setPos i = .ok st from by simpa using hst]
    rw [show env.writeRow i = .error e from by simpa using herr]
    simp [rowsFrom_zero, cmdsFrom_zero]
  | succ k ih =>
    intro i fuel e hle hok hw herr hfuel
    obtain ⟨f, rfl⟩ : ∃ f, fuel = f + 1 := ⟨fuel - 1, by omega⟩
    have h0 : env.offsets i ≤ stopThreshold := by simpa using hle 0 (by omega)
    obtain ⟨st, hst⟩ := hok 0 (by omega)
    have hw0 : env.writeRow i = .ok () := by simpa using hw 0 (by omega)
    rw [loop]
    rw [if_neg (by simpa using not_lt.2 h0)]
    rw [show env.setPos i = .ok st from by simpa using hst, hw0]
    have hrec := ih (i + 1) f e
      (fun j hj => by
        have h := hle (j + 1) (by omega)
        have hi : i + (j + 1) = i + 1 + j := by omega
        rwa [hi] at h)
      (fun j hj => by
        have h := hok (j + 1) (by omega)
        have hi : i + (j + 1) = i + 1 + j := by omega
        rwa [hi] at h)
      (fun j hj => by
        have h := hw (j + 1) (by omega)
        have hi : i + (j + 1) = i + 1 + j := by omega
        rwa [hi] at h)
      (by
        have hi : i + (k + 1) = i + 1 + k := by omega
        rwa [hi] at herr)
      (by omega)
    rw [hrec]
    rw [rowsFrom_succ, cmdsFrom_succ]
    simp only [rowOf, show env.setPos i = .ok st from by simpa using hst]
    have hi : i + 1 + k = i + (k + 1) := by omega
    simp [hi]

/-- If the final `set_stop` raises, the loop still ends with that error
after the `n` normal iterations. -/
theorem loop_finalStopError_eq {E : Type} (env : Env E) :
    ∀ (n i fuel : ℕ) (e : E),
      (∀ j, j < n → env.offsets (i + j) ≤ stopThreshold) →
      (∀ j, j < n → ∃ st, env.setPos (i + j) = .ok st) →
      (∀ j, j < n → env.writeRow (i + j) = .ok ()) →
      stopThreshold < env.offsets (i + n) →
      env.finalStop = .error e →
      n < fuel →
      loop env i fuel = ⟨rowsFrom env i n, cmdsFrom env i n ++ [Cmd.stop], .error e⟩ := by
  intro n
  induction n with
  | zero =>
    intro i fuel e _ _ _ hgt hstop hfuel
    obtain ⟨f, rfl⟩ : ∃ f, fuel = f + 1 := ⟨fuel - 1, by omega⟩
    rw [loop]
    rw [if_pos (by simpa using hgt), hstop]
    simp [rowsFrom_zero, cmdsFrom_zero]
  | succ n ih =>
    intro i fuel e hle hok hw hgt hstop hfuel
    obtain ⟨f, rfl⟩ : ∃ f, fuel = f + 1 := ⟨fuel - 1, by omega⟩
    have h0 : env.offsets i ≤ stopThreshold := by simpa using hle 0 (by omega)
    obtain ⟨st, hst⟩ := hok 0 (by omega)
    have hw0 : env.writeRow i = .ok () := by simpa using hw 0 (by omega)
    rw [loop]
    rw [if_neg (by simpa using not_lt.2 h0)]
    rw [show env.setPos i = .ok st from by simpa using hst, hw0]
    have hrec := ih (i + 1) f e
      (fun j hj => by
        have h := hle (j + 1) (by omega)
        have hi : i + (j + 1) = i + 1 + j := by omega
        rwa [hi] at h)
      (fun j hj => by
        have h := hok (j + 1) (by omega)
        have hi : i + (j + 1) = i + 1 + j := by omega
        rwa [hi] at h)
      (fun j hj => by
        have h := hw (j + 1) (by omega)
        have hi : i + (j + 1) = i + 1 + j := by omega
        rwa [hi] at h)
      (by
        have hi : i + (n + 1) = i + 1 + n := by omega
        rwa [hi] at hgt)
      hstop (by omega)
    rw [hrec]
    rw [rowsFrom_succ, cmdsFrom_succ]
    simp only [rowOf, show env.setPos i = .ok st from by simpa using hst]
    rfl
/-- Every `set_position` command in the loop trace carries the
`desired_position` of a sampled elapsed time, together with the literal
`accel_limit=2.0` and `velocity_limit=5.0`. -/
theorem setPosition_mem_cmds {E : Type} (env : Env E) :
    ∀ (fuel i : ℕ) (p a v : ℚ),
      Cmd.setPosition p a v ∈ (loop env i fuel).cmds →
      ∃ j, i ≤ j ∧ p = desired_position (env.offsets j) ∧ a = 2 ∧ v = 5 := by
  intro fuel
  induction fuel with
  | zero => intro i p a v h; simp [loop] at h
  | succ f ih =>
    intro i p a v h
    rw [loop] at h
    by_cases hc : stopThreshold < env.offsets i
    · rw [if_pos hc] at h
      match hstop : env.finalStop with
      | .error e => rw [hstop] at h; simp at h
      | .ok _ => rw [hstop] at h; simp at h
    · rw [if_neg hc] at h
      match hsp : env.setPos i with
      | .error e =>
        rw [hsp] at h
        simp at h
        obtain ⟨hp, ha, hv⟩ := h
        exact ⟨i, le_refl i, hp, ha, hv⟩
      | .ok st =>
        rw [hsp] at h
        match hwr : env.writeRow i with
        | .error e =>
          rw [hwr] at h
          simp at h
          obtain ⟨hp, ha, hv⟩ := h
          exact ⟨i, le_refl i, hp, ha, hv⟩
        | .ok _ =>
          rw [hwr] at h
          simp at h
          rcases h with ⟨hp, ha, hv⟩ | h
          · exact ⟨i, le_refl i, hp, ha, hv⟩
          · obtain ⟨j, hij, rest⟩ := ih (i + 1) p a v h
            exact ⟨j, by omega, rest⟩

/-- Every row in the loop trace is a seven-field record whose second
field is the `desired_position` of its first field. -/
theorem mem_rows_shape {E : Type} (env : Env E) :
    ∀ (fuel i : ℕ) (row : List (Option ℚ)),
      row ∈ (loop env i fuel).rows →
      ∃ (t : ℚ) (st : Telemetry),
        row = [some t, some (desired_position t), some st.position,
               some st.velocity, some st.torque, some st.mode, some st.fault] := by
  intro fuel
  induction fuel with
  | zero => intro i row h; simp [loop] at h
  | succ f ih =>
    intro i row h
    rw [loop] at h
    by_cases hc : stopThreshold < env.offsets i
    · rw [if_pos hc] at h
      match hstop : env.finalStop with
      | .error e => rw [hstop] at h; simp at h
      | .ok _ => rw [hstop] at h; simp at h
    · rw [if_neg hc] at h
      match hsp : env.setPos i with
      | .error e => rw [hsp] at h; simp at h
      | .ok st =>
        rw [hsp] at h
        match hwr : env.writeRow i with
        | .error e => rw [hwr] at h; simp at h
        | .ok _ =>
          rw [hwr] at h
          simp at h
          rcases h with h | h
          · exact ⟨env.offsets i, st, by rw [h, dictWriterRow_rowDict]⟩
          · exact ih (i + 1) row h

theorem setpoints_append (l1 l2 : List Cmd) :
    setpoints (l1 ++ l2) = setpoints l1 ++ setpoints l2 := by
  simp [setpoints]

theorem setpoints_stop : setpoints [Cmd.stop] = [] := rfl

theorem setpoints_cmdsFrom {E : Type} (env : Env E) (i n : ℕ) :
    setpoints (cmdsFrom env i n) =
      (List.range n).map fun j => desired_position (env.offsets (i + j)) := by
  unfold setpoints cmdsFrom
  rw [List.filterMap_map]
  have hcomp : ((fun c => match c with
        | Cmd.setPosition p _ _ => some p
        | _ => none) ∘
      fun j : ℕ => Cmd.setPosition (desired_position (env.offsets (i + j))) 2 5)
      = some ∘ fun j : ℕ => desired_position (env.offsets (i + j)) := rfl
  rw [hcomp, List.filterMap_eq_map]

/-- In error-free runs the header and the loop rows make up the file. -/
theorem mainRun_cases {E : Type} (env : Env E) (fuel : ℕ) :
    (mainRun env fuel).rows = [] ∨
    ((mainRun env fuel).headerOut = some fieldnames ∧
      (mainRun env fuel).rows = (loop env 0 fuel).rows) := by
  unfold mainRun
  rcases env.openOut with e | u
  · left; rfl
  rcases env.writeHeader with e | u
  · left; rfl
  rcases env.initStop with e | u
  · left; rfl
  rcases env.rezero with e | u
  · left; rfl
  right; exact ⟨rfl, rfl⟩

/-! ## Arithmetic of the setpoint formula -/

theorem desired_position_def (t : ℚ) :
    desired_position t = (⌊t / STEP_TIME_S⌋ : ℚ) / STEP_DIVISIONS := rfl

theorem floor_half_eq (k : ℤ) (t : ℚ)
    (h1 : (k : ℚ) * STEP_TIME_S ≤ t) (h2 : t < ((k : ℚ) + 1) * STEP_TIME_S) :
    ⌊t / STEP_TIME_S⌋ = k := by
  rw [Int.floor_eq_iff]
  unfold STEP_TIME_S at h1 h2 ⊢
  constructor
  · rw [le_div_iff₀ (by norm_num : (0:ℚ) < 2)]; linarith
  · rw [div_lt_iff₀ (by norm_num : (0:ℚ) < 2)]; linarith

/-- On the step interval `[k*T, (k+1)*T)` the setpoint is `k/D`. -/
theorem desired_position_plateau (k : ℤ) (t : ℚ)
    (h1 : (k : ℚ) * STEP_TIME_S ≤ t) (h2 : t < ((k : ℚ) + 1) * STEP_TIME_S) :
    desired_position t = (k : ℚ) / STEP_DIVISIONS := by
  rw [desired_position_def, floor_half_eq k t h1 h2]

theorem desired_position_mono : Monotone desired_position := by
  intro a b hab
  unfold desired_position
  have hfl : ⌊a / STEP_TIME_S⌋ ≤ ⌊b / STEP_TIME_S⌋ :=
    Int.floor_le_floor
      ((div_le_div_iff_of_pos_right (by norm_num [STEP_TIME_S])).mpr hab)
  exact (div_le_div_iff_of_pos_right (by norm_num [STEP_DIVISIONS])).mpr
    (Int.cast_le.mpr hfl)

theorem desired_position_nonneg (t : ℚ) (h : 0 ≤ t) : 0 ≤ desired_position t := by
  unfold desired_position
  apply div_nonneg _ (by norm_num [STEP_DIVISIONS])
  exact_mod_cast Int.floor_nonneg.mpr (div_nonneg h (by norm_num [STEP_TIME_S]))

theorem desired_position_le_one (t : ℚ) (h : t < stopThreshold) :
    desired_position t ≤ 1 := by
  unfold desired_position
  rw [div_le_one (by norm_num [STEP_DIVISIONS])]
  have hfl : ⌊t / STEP_TIME_S⌋ < 7 := by
    rw [Int.floor_lt]
    rw [div_lt_iff₀ (by norm_num [STEP_TIME_S] : (0:ℚ) < STEP_TIME_S)]
    unfold stopThreshold STEP_TIME_S STEP_DIVISIONS at h
    norm_num [STEP_TIME_S]
    linarith
  have h6 : ⌊t / STEP_TIME_S⌋ ≤ 6 := by omega
  unfold STEP_DIVISIONS
  exact_mod_cast h6

theorem desired_position_mem_range (t : ℚ) (h0 : 0 ≤ t) (h1 : t < stopThreshold) :
    ∃ k : ℕ, k < 7 ∧ desired_position t = (k : ℚ) / STEP_DIVISIONS := by
  have hk0 : 0 ≤ ⌊t / STEP_TIME_S⌋ :=
    Int.floor_nonneg.mpr (div_nonneg h0 (by norm_num [STEP_TIME_S]))
  have hk7 : ⌊t / STEP_TIME_S⌋ < 7 := by
    rw [Int.floor_lt]
    rw [div_lt_iff₀ (by norm_num [STEP_TIME_S] : (0:ℚ) < STEP_TIME_S)]
    unfold stopThreshold STEP_TIME_S STEP_DIVISIONS at h1
    norm_num [STEP_TIME_S]
    linarith
  refine ⟨⌊t / STEP_TIME_S⌋.toNat, by omega, ?_⟩
  rw [desired_position_def]
  congr 1
  exact_mod_cast (Int.toNat_of_nonneg hk0).symm

/-- A run whose sampled times stay in `[0, threshold)` and land in every
step interval commands exactly the seven plateau values. -/
theorem toFinset_plateaus {E : Type} (env : Env E) (n : ℕ)
    (hpos : ∀ j, j < n → 0 ≤ env.offsets j)
    (hlt : ∀ j, j < n → env.offsets j < stopThreshold)
    (hvisit : ∀ k : ℕ, k < 7 → ∃ j, j < n ∧
      (k : ℚ) * STEP_TIME_S ≤ env.offsets j ∧
      env.offsets j < ((k : ℚ) + 1) * STEP_TIME_S) :
    (setpoints (cmdsFrom env 0 n)).toFinset =
      Finset.image (fun k : ℕ => (k : ℚ) / STEP_DIVISIONS) (Finset.range 7) := by
  apply Finset.ext
  intro x
  simp only [List.mem_toFinset, Finset.mem_image, Finset.mem_range,
    setpoints_cmdsFrom, List.mem_map, List.mem_range, Nat.zero_add]
  constructor
  · rintro ⟨j, hj, rfl⟩
    obtain ⟨k, hk7, hk⟩ :=
      desired_position_mem_range (env.offsets j) (hpos j hj) (hlt j hj)
    exact ⟨k, hk7, hk.symm⟩
  · rintro ⟨k, hk7, rfl⟩
    obtain ⟨j, hj, h1, h2⟩ := hvisit k hk7
    refine ⟨j, hj, ?_⟩
    have hpl := desired_position_plateau (k : ℤ) (env.offsets j)
      (by push_cast; exact h1) (by push_cast; exact h2)
    rw [hpl]
    push_cast
    rfl

theorem div_six_injective :
    Function.Injective fun k : ℕ => (k : ℚ) / STEP_DIVISIONS := by
  intro a b h
  simp only [STEP_DIVISIONS] at h
  field_simp at h
  exact_mod_cast h
/-! ## Concrete runs used to exercise the theorems -/

theorem envBoundary_cmds :
    (loop envBoundary 0 9).cmds =
      [Cmd.setPosition 0 2 5, Cmd.setPosition (1/6) 2 5, Cmd.setPosition (1/3) 2 5,
       Cmd.setPosition (1/2) 2 5, Cmd.setPosition (2/3) 2 5, Cmd.setPosition (5/6) 2 5,
       Cmd.setPosition 1 2 5, Cmd.setPosition (7/6) 2 5, Cmd.stop] := by
  norm_num [loop, envBoundary, desired_position, stopThreshold, STEP_TIME_S, STEP_DIVISIONS]

theorem envW_cmds1 : (loop envW 0 1).cmds = [Cmd.setPosition 0 2 5] := by
  norm_num [loop, envW, desired_position, stopThreshold, STEP_TIME_S, STEP_DIVISIONS]

theorem envPlateau_offsets_lt (j : ℕ) (hj : j < 7) :
    envPlateau.offsets j = 2 * (j : ℚ) := by
  simp [envPlateau, hj]

theorem envW_row_mem :
    [some 0, some 0, some 0, some 0, some 0, some 0, some 0] ∈ (mainRun envW 2).rows := by
  have h : dictWriterRow fieldnames (rowDict 0 0 ⟨0, 0, 0, 0, 0⟩) =
      [some 0, some 0, some 0, some 0, some 0, some 0, some 0] := rfl
  norm_num [mainRun, loop, envW, desired_position, stopThreshold,
    STEP_TIME_S, STEP_DIVISIONS, h]

/-! ## The claims -/

/-- Claim C1: for every elapsed time `t` sampled by the loop, the
commanded desired position equals `floor(t / T) / D`; the setpoint
formula is a step function yielding `0` on `[0, T)`, `1/D` on `[T, 2T)`,
and `floor(t/T)/D` in general. -/
theorem c1_setpoint_formula {E : Type} (env : Env E) (i fuel : ℕ) (p a v : ℚ)
    (hmem : Cmd.setPosition p a v ∈ (loop env i fuel).cmds) :
    (∃ j, i ≤ j ∧ p = (⌊env.offsets j / STEP_TIME_S⌋ : ℚ) / STEP_DIVISIONS) ∧
    (∀ t : ℚ, desired_position t = (⌊t / STEP_TIME_S⌋ : ℚ) / STEP_DIVISIONS) ∧
    (∀ t : ℚ, 0 ≤ t → t < STEP_TIME_S → desired_position t = 0) ∧
    (∀ t : ℚ, STEP_TIME_S ≤ t → t < 2 * STEP_TIME_S →
      desired_position t = 1 / STEP_DIVISIONS) := by
  refine ⟨?_, fun t => desired_position_def t, ?_, ?_⟩
  · obtain ⟨j, hij, hp, _, _⟩ := setPosition_mem_cmds env fuel i p a v hmem
    exact ⟨j, hij, by rw [hp, desired_position_def]⟩
  · intro t h0 h1
    have h := desired_position_plateau 0 t (by push_cast; linarith)
      (by push_cast; linarith)
    simpa using h
  · intro t h0 h1
    have h := desired_position_plateau 1 t (by push_cast; linarith)
      (by push_cast; linarith)
    exact h.trans (by norm_num)

/-- Witness for C1 at the run of `envW`. -/
theorem c1_witness :
    (∃ j, 0 ≤ j ∧ (0:ℚ) = (⌊envW.offsets j / STEP_TIME_S⌋ : ℚ) / STEP_DIVISIONS) ∧
    desired_position 1 = 0 ∧ desired_position 3 = 1 / STEP_DIVISIONS := by
  have h := c1_setpoint_formula envW 0 1 0 2 5 (by rw [envW_cmds1]; simp)
  exact ⟨h.1, h.2.2.1 1 (by norm_num) (by norm_num [STEP_TIME_S]),
    h.2.2.2 3 (by norm_num [STEP_TIME_S]) (by norm_num [STEP_TIME_S])⟩

/-- Claim C2: for every strictly increasing, unbounded clock and an
error-free device, the loop terminates at the first iteration whose
elapsed time exceeds `T * (D + 1)`: it runs exactly the iterations
before that point, then issues `set_stop` as its final command and
stops, sending no further `set_position`. -/
theorem c2_loop_terminates {E : Type} (env : Env E)
    (hmono : StrictMono env.offsets)
    (hunb : ∀ B : ℚ, ∃ i, B < env.offsets i)
    (hok : ∀ i, ∃ st, env.setPos i = .ok st)
    (hw : ∀ i, env.writeRow i = .ok ())
    (hstop : env.finalStop = .ok ()) :
    ∃ n fuel : ℕ,
      (∀ j, j < n → env.offsets j ≤ stopThreshold) ∧
      stopThreshold < env.offsets n ∧
      loop env 0 fuel =
        ⟨rowsFrom env 0 n, cmdsFrom env 0 n ++ [Cmd.stop], .stopped⟩ := by
  classical
  have hex : ∃ m, stopThreshold < env.offsets m := hunb stopThreshold
  refine ⟨Nat.find hex, Nat.find hex + 1, ?_, Nat.find_spec hex, ?_⟩
  · exact fun j hj => not_lt.1 (Nat.find_min hex hj)
  · exact loop_run_eq env (Nat.find hex) 0 (Nat.find hex + 1)
      (fun j hj => by simpa using not_lt.1 (Nat.find_min hex hj))
      (fun j _ => by simpa using hok j)
      (fun j _ => by simpa using hw j)
      (by simpa using Nat.find_spec hex)
      hstop (by omega)

/-- Witness for C2 at the run of `envW`. -/
theorem c2_witness :
    ∃ n fuel : ℕ,
      (∀ j, j < n → envW.offsets j ≤ stopThreshold) ∧
      stopThreshold < envW.offsets n ∧
      loop envW 0 fuel =
        ⟨rowsFrom envW 0 n, cmdsFrom envW 0 n ++ [Cmd.stop], .stopped⟩ :=
  c2_loop_terminates envW
    (fun a b h => by
      dsimp [envW]
      have hab : (a : ℚ) < b := by exact_mod_cast h
      linarith)
    (fun B => by
      obtain ⟨m, hm⟩ := exists_nat_gt B
      refine ⟨m, ?_⟩
      dsimp [envW]
      have h0 : (0 : ℚ) ≤ (m : ℚ) := Nat.cast_nonneg m
      linarith)
    (fun _ => ⟨⟨0, 0, 0, 0, 0⟩, rfl⟩)
    (fun _ => rfl)
    rfl
/-- Counterexample to claim C3 as stated: the run of `envBoundary`
samples every step interval `[k*T, (k+1)*T)` for `k = 0..6` before its
first sample beyond `T*(D+1) = 14`, yet it also samples the exact
threshold time `14` (which the strict `>` test lets through), so it
commands 8 distinct setpoints rather than `D + 1 = 7`. -/
theorem c3_counterexample :
    envBoundary.offsets 0 = 0 ∧ envBoundary.offsets 1 = 2 ∧
    envBoundary.offsets 2 = 4 ∧ envBoundary.offsets 3 = 6 ∧
    envBoundary.offsets 4 = 8 ∧ envBoundary.offsets 5 = 10 ∧
    envBoundary.offsets 6 = 12 ∧ envBoundary.offsets 7 = 14 ∧
    envBoundary.offsets 8 = 15 ∧
    stopThreshold = 14 ∧ STEP_TIME_S = 2 ∧ STEP_DIVISIONS = 6 ∧
    (loop envBoundary 0 9).outcome = Outcome.stopped ∧
    setpoints (loop envBoundary 0 9).cmds =
      [0, 1/6, 1/3, 1/2, 2/3, 5/6, 1, 7/6] ∧
    (setpoints (loop envBoundary 0 9).cmds).dedup.length = 8 := by
  have hsp : setpoints (loop envBoundary 0 9).cmds =
      [0, 1/6, 1/3, 1/2, 2/3, 5/6, 1, 7/6] := by
    rw [envBoundary_cmds]; rfl
  have hnd : ([0, 1/6, 1/3, 1/2, 2/3, 5/6, 1, 7/6] : List ℚ).Nodup := by
    norm_num
  refine ⟨by norm_num [envBoundary], by norm_num [envBoundary],
    by norm_num [envBoundary], by norm_num [envBoundary],
    by norm_num [envBoundary], by norm_num [envBoundary],
    by norm_num [envBoundary], by norm_num [envBoundary],
    by norm_num [envBoundary],
    by norm_num [stopThreshold, STEP_TIME_S, STEP_DIVISIONS], rfl, rfl,
    ?_, hsp, ?_⟩
  · norm_num [loop, envBoundary, stopThreshold, STEP_TIME_S, STEP_DIVISIONS]
  · rw [hsp, List.Nodup.dedup hnd]
    rfl

/-- Claim C3, amended: in an error-free run all of whose sampled times
before termination lie in `[0, T*(D+1))` and visit each step interval
`[k*T, (k+1)*T)` for `k = 0..D`, the set of distinct commanded setpoints
has exactly `D + 1 = 7` elements. -/
theorem c3_plateau_count {E : Type} (env : Env E) (n fuel : ℕ)
    (hpos : ∀ j, j < n → 0 ≤ env.offsets j)
    (hlt : ∀ j, j < n → env.offsets j < stopThreshold)
    (hok : ∀ j, j < n → ∃ st, env.setPos j = .ok st)
    (hw : ∀ j, j < n → env.writeRow j = .ok ())
    (hgt : stopThreshold < env.offsets n)
    (hstop : env.finalStop = .ok ())
    (hfuel : n < fuel)
    (hvisit : ∀ k : ℕ, k < 7 → ∃ j, j < n ∧
      (k : ℚ) * STEP_TIME_S ≤ env.offsets j ∧
      env.offsets j < ((k : ℚ) + 1) * STEP_TIME_S) :
    (setpoints (loop env 0 fuel).cmds).dedup.length = 7 := by
  rw [loop_run_eq env n 0 fuel
      (fun j hj => by simpa using (hlt j hj).le)
      (fun j hj => by simpa using hok j hj)
      (fun j hj => by simpa using hw j hj)
      (by simpa using hgt) hstop hfuel]
  rw [← List.card_toFinset]
  show (setpoints (cmdsFrom env 0 n ++ [Cmd.stop])).toFinset.card = 7
  rw [setpoints_append, setpoints_stop, List.append_nil]
  rw [toFinset_plateaus env n hpos hlt hvisit]
  rw [Finset.card_image_of_injective _ div_six_injective, Finset.card_range]

/-- Witness for C3 (amended) at the run of `envPlateau`. -/
theorem c3_witness :
    (setpoints (loop envPlateau 0 8).cmds).dedup.length = 7 := by
  apply c3_plateau_count envPlateau 7 8
  · intro j hj
    rw [envPlateau_offsets_lt j hj]
    positivity
  · intro j hj
    rw [envPlateau_offsets_lt j hj]
    have h6 : (j : ℚ) ≤ 6 := by exact_mod_cast Nat.lt_succ_iff.mp hj
    norm_num [stopThreshold, STEP_TIME_S, STEP_DIVISIONS]
    linarith
  · exact fun _ _ => ⟨⟨0, 0, 0, 0, 0⟩, rfl⟩
  · exact fun _ _ => rfl
  · norm_num [envPlateau, stopThreshold, STEP_TIME_S, STEP_DIVISIONS]
  · rfl
  · omega
  · intro k hk
    refine ⟨k, hk, ?_, ?_⟩
    · rw [envPlateau_offsets_lt k hk]
      norm_num [STEP_TIME_S]
      linarith
    · rw [envPlateau_offsets_lt k hk]
      norm_num [STEP_TIME_S]
      linarith

/-- Counterexample to claim C4 as stated: the loop's `>` test lets the
exact threshold time `t = 14 = T*(D+1)` through, and there it commands
the setpoint `floor(14/2)/6 = 7/6`, which is greater than `1`. -/
theorem c4_counterexample :
    envBoundary.offsets 7 = 14 ∧
    (0:ℚ) ≤ 14 ∧ (14:ℚ) ≤ STEP_TIME_S * (STEP_DIVISIONS + 1) ∧
    Cmd.setPosition (7/6) 2 5 ∈ (loop envBoundary 0 9).cmds ∧
    desired_position 14 = 7/6 ∧
    ¬ ((7:ℚ)/6 ≤ 1) := by
  refine ⟨by norm_num [envBoundary], by norm_num,
    by norm_num [STEP_TIME_S, STEP_DIVISIONS], ?_,
    by norm_num [desired_position, STEP_TIME_S, STEP_DIVISIONS], by norm_num⟩
  rw [envBoundary_cmds]
  simp

/-- Claim C4, amended: every setpoint commanded at an elapsed time `t`
with `0 ≤ t < T*(D+1)` lies in the closed interval `[0, 1]` (at
`t = T*(D+1)` exactly, the loop still sends a command and its setpoint
`(D+1)/D` exceeds `1`). -/
theorem c4_setpoint_in_unit_range {E : Type} (env : Env E) (n : ℕ) (p a v : ℚ)
    (hpos : ∀ j, j < n → 0 ≤ env.offsets j)
    (hlt : ∀ j, j < n → env.offsets j < stopThreshold)
    (hmem : Cmd.setPosition p a v ∈ cmdsFrom env 0 n) :
    0 ≤ p ∧ p ≤ 1 := by
  unfold cmdsFrom at hmem
  simp only [List.mem_map, List.mem_range, Cmd.setPosition.injEq, Nat.zero_add] at hmem
  obtain ⟨j, hj, hp, -, -⟩ := hmem
  rw [← hp]
  exact ⟨desired_position_nonneg _ (hpos j hj),
    desired_position_le_one _ (hlt j hj)⟩

/-- Witness for C4 (amended) at the run of `envPlateau`. -/
theorem c4_witness : (0:ℚ) ≤ 0 ∧ (0:ℚ) ≤ 1 := by
  apply c4_setpoint_in_unit_range envPlateau 7 0 2 5
  · intro j hj
    rw [envPlateau_offsets_lt j hj]
    positivity
  · intro j hj
    rw [envPlateau_offsets_lt j hj]
    have h6 : (j : ℚ) ≤ 6 := by exact_mod_cast Nat.lt_succ_iff.mp hj
    norm_num [stopThreshold, STEP_TIME_S, STEP_DIVISIONS]
    linarith
  · unfold cmdsFrom
    apply List.mem_map.mpr
    refine ⟨0, by simp, ?_⟩
    norm_num [envPlateau, desired_position, STEP_TIME_S, STEP_DIVISIONS]
/-- Claim C5: the output CSV begins with exactly the header fields
`time, desired_position, position, velocity, torque, mode, fault` in
that order, and every data row places its values in that same fixed
field order. -/
theorem c5_csv_layout {E : Type} (env : Env E) (fuel : ℕ) (row : List (Option ℚ))
    (hrow : row ∈ (mainRun env fuel).rows) :
    (mainRun env fuel).headerOut =
      some ["time", "desired_position", "position", "velocity", "torque",
            "mode", "fault"] ∧
    ∃ (t : ℚ) (st : Telemetry),
      row = [some t, some (desired_position t), some st.position,
             some st.velocity, some st.torque, some st.mode, some st.fault] := by
  rcases mainRun_cases env fuel with h | ⟨hh, hr⟩
  · rw [h] at hrow; simp at hrow
  · rw [hr] at hrow
    exact ⟨by rw [hh]; rfl, mem_rows_shape env fuel 0 row hrow⟩

/-- Witness for C5 at the run of `envW`. -/
theorem c5_witness :
    (mainRun envW 2).headerOut =
      some ["time", "desired_position", "position", "velocity", "torque",
            "mode", "fault"] ∧
    ∃ (t : ℚ) (st : Telemetry),
      [some 0, some 0, some 0, some 0, some 0, some 0, some 0] =
        [some t, some (desired_position t), some st.position,
         some st.velocity, some st.torque, some st.mode, some st.fault] :=
  c5_csv_layout envW 2 _ envW_row_mem

/-- Claim C6: in an error-free run each completed loop iteration emits
exactly one CSV row: the run that stops at iteration `n` has written
exactly `n` rows, one `set_position` per row, with the `j`-th row coming
from the `j`-th iteration. -/
theorem c6_one_row_per_iteration {E : Type} (env : Env E) (n fuel : ℕ)
    (hle : ∀ j, j < n → env.offsets j ≤ stopThreshold)
    (hok : ∀ j, j < n → ∃ st, env.setPos j = .ok st)
    (hw : ∀ j, j < n → env.writeRow j = .ok ())
    (hgt : stopThreshold < env.offsets n)
    (hstop : env.finalStop = .ok ())
    (hfuel : n < fuel) :
    (loop env 0 fuel).rows.length = n ∧
    (setpoints (loop env 0 fuel).cmds).length = n ∧
    ∀ j, j < n → (loop env 0 fuel).rows[j]? = some (rowOf env j) := by
  rw [loop_run_eq env n 0 fuel
      (fun j hj => by simpa using hle j hj)
      (fun j hj => by simpa using hok j hj)
      (fun j hj => by simpa using hw j hj)
      (by simpa using hgt) hstop hfuel]
  refine ⟨by simp [rowsFrom], ?_, ?_⟩
  · rw [setpoints_append, setpoints_stop, List.append_nil, setpoints_cmdsFrom]
    simp
  · intro j hj
    simp [rowsFrom, List.getElem?_map, List.getElem?_range hj]

/-- Witness for C6 at the run of `envW`. -/
theorem c6_witness :
    (loop envW 0 2).rows.length = 1 ∧
    (setpoints (loop envW 0 2).cmds).length = 1 ∧
    (loop envW 0 2).rows[0]? = some (rowOf envW 0) := by
  have h := c6_one_row_per_iteration envW 1 2
    (fun j hj => by
      interval_cases j
      norm_num [envW, stopThreshold, STEP_TIME_S, STEP_DIVISIONS])
    (fun _ _ => ⟨⟨0, 0, 0, 0, 0⟩, rfl⟩)
    (fun _ _ => rfl)
    (by norm_num [envW, stopThreshold, STEP_TIME_S, STEP_DIVISIONS])
    rfl (by omega)
  exact ⟨h.1, h.2.1, h.2.2 0 (by omega)⟩

/-- Claim C7: the CLI registers exactly one optional flag, which selects
the output CSV path and defaults to `data.csv` when absent. -/
theorem c7_cli (argv : List String) (hnone : lookupFlag argv = none) :
    parseOutput argv = "data.csv" ∧
    argumentSpecs = [⟨["--output", "-o"], some "data.csv"⟩] ∧
    argumentSpecs.length = 1 := by
  refine ⟨?_, rfl, rfl⟩
  unfold parseOutput
  rw [hnone]

/-- Witness for C7 at the empty argument vector. -/
theorem c7_witness :
    parseOutput [] = "data.csv" ∧
    argumentSpecs = [⟨["--output", "-o"], some "data.csv"⟩] ∧
    argumentSpecs.length = 1 :=
  c7_cli [] rfl

/-- Claim C8: every failure of an external call (opening the file,
writing the header, `set_stop`, `set_rezero`, `set_position`, or writing
a row) propagates out of `main` uncaught, and no further CSV rows are
written after the failure. -/
theorem c8_error_propagation {E : Type} (env : Env E) (fuel : ℕ) (e : E) (k : ℕ)
    (hle : ∀ j, j < k → env.offsets j ≤ stopThreshold)
    (hok : ∀ j, j < k → ∃ st, env.setPos j = .ok st)
    (hw : ∀ j, j < k → env.writeRow j = .ok ())
    (hfuel : k < fuel) :
    (env.openOut = .error e →
      mainRun env fuel = ⟨none, [], [], .error e⟩) ∧
    (env.openOut = .ok () → env.writeHeader = .error e →
      mainRun env fuel = ⟨none, [], [], .error e⟩) ∧
    (env.openOut = .ok () → env.writeHeader = .ok () → env.initStop = .error e →
      mainRun env fuel = ⟨some fieldnames, [], [Cmd.stop], .error e⟩) ∧
    (env.openOut = .ok () → env.writeHeader = .ok () → env.initStop = .ok () →
      env.rezero = .error e →
      mainRun env fuel = ⟨some fieldnames, [], [Cmd.stop, Cmd.rezero], .error e⟩) ∧
    (env.offsets k ≤ stopThreshold → env.setPos k = .error e →
      (loop env 0 fuel).outcome = .error e ∧
      (loop env 0 fuel).rows = rowsFrom env 0 k ∧
      (loop env 0 fuel).rows.length = k) ∧
    (env.offsets k ≤ stopThreshold → (∃ st, env.setPos k = .ok st) →
      env.writeRow k = .error e →
      (loop env 0 fuel).outcome = .error e ∧
      (loop env 0 fuel).rows = rowsFrom env 0 k ∧
      (loop env 0 fuel).rows.length = k) ∧
    (stopThreshold < env.offsets k → env.finalStop = .error e →
      (loop env 0 fuel).outcome = .error e ∧
      (loop env 0 fuel).rows = rowsFrom env 0 k ∧
      (loop env 0 fuel).rows.length = k) := by
  refine ⟨?_, ?_, ?_, ?_, ?_, ?_, ?_⟩
  · intro ho
    unfold mainRun
    rw [ho]
  · intro ho hh
    unfold mainRun
    rw [ho, hh]
  · intro ho hh hi
    unfold mainRun
    rw [ho, hh, hi]
  · intro ho hh hi hr
    unfold mainRun
    rw [ho, hh, hi, hr]
  · intro hk herr
    have hrun := loop_setPosError_eq env k 0 fuel e
      (fun j hj => by
        rcases Nat.lt_or_ge j k with h | h
        · simpa using hle j h
        · have hjk : j = k := by omega
          subst hjk
          simpa using hk)
      (fun j hj => by simpa using hok j hj)
      (fun j hj => by simpa using hw j hj)
      (by simpa using herr) hfuel
    rw [hrun]
    exact ⟨rfl, rfl, by simp [rowsFrom]⟩
  · intro hk hokk herr
    have hrun := loop_writeRowError_eq env k 0 fuel e
      (fun j hj => by
        rcases Nat.lt_or_ge j k with h | h
        · simpa using hle j h
        · have hjk : j = k := by omega
          subst hjk
          simpa using hk)
      (fun j hj => by
        rcases Nat.lt_or_ge j k with h | h
        · simpa using hok j h
        · have hjk : j = k := by omega
          subst hjk
          simpa using hokk)
      (fun j hj => by simpa using hw j hj)
      (by simpa using herr) hfuel
    rw [hrun]
    exact ⟨rfl, rfl, by simp [rowsFrom]⟩
  · intro hk herr
    have hrun := loop_finalStopError_eq env k 0 fuel e
      (fun j hj => by simpa using hle j hj)
      (fun j hj => by simpa using hok j hj)
      (fun j hj => by simpa using hw j hj)
      (by simpa using hk) herr hfuel
    rw [hrun]
    exact ⟨rfl, rfl, by simp [rowsFrom]⟩

/-- Witness for C8 at the run of `envFail`, whose first `set_position`
raises. -/
theorem c8_witness :
    (loop envFail 0 1).outcome = Outcome.error () ∧
    (loop envFail 0 1).rows = rowsFrom envFail 0 0 ∧
    (loop envFail 0 1).rows.length = 0 :=
  (c8_error_propagation envFail 1 () 0
    (fun j hj => absurd hj (by omega))
    (fun j hj => absurd hj (by omega))
    (fun j hj => absurd hj (by omega))
    (by omega)).2.2.2.2.1
    (by norm_num [envFail, stopThreshold, STEP_TIME_S, STEP_DIVISIONS]) rfl

/-- Claim C9: the step parameters are `T = 2` seconds and `D = 6`, the
loop's termination threshold `T*(D+1)` is `14` seconds, and every value
of the setpoint formula is an integer multiple of `1/6`. -/
theorem c9_constants :
    STEP_TIME_S = 2 ∧ STEP_DIVISIONS = 6 ∧
    STEP_TIME_S * (STEP_DIVISIONS + 1) = 14 ∧
    ∀ t : ℚ, ∃ k : ℤ, desired_position t = (k : ℚ) * (1 / 6) := by
  refine ⟨rfl, rfl, by norm_num [STEP_TIME_S, STEP_DIVISIONS], ?_⟩
  intro t
  refine ⟨⌊t / STEP_TIME_S⌋, ?_⟩
  rw [desired_position_def]
  unfold STEP_DIVISIONS
  ring

/-- Claim C10: in an error-free run with a non-decreasing clock, each
CSV row's `desired_position` field equals the setpoint formula applied
to its `time` field, and consecutive rows have non-decreasing `time` and
`desired_position` fields. -/
theorem c10_row_consistency {E : Type} (env : Env E) (n fuel : ℕ)
    (hmono : Monotone env.offsets)
    (hle : ∀ j, j < n → env.offsets j ≤ stopThreshold)
    (hok : ∀ j, j < n → ∃ st, env.setPos j = .ok st)
    (hw : ∀ j, j < n → env.writeRow j = .ok ())
    (hgt : stopThreshold < env.offsets n)
    (hstop : env.finalStop = .ok ())
    (hfuel : n < fuel) :
    (∀ j, j < n → ∃ st : Telemetry,
      (loop env 0 fuel).rows[j]? =
        some [some (env.offsets j), some (desired_position (env.offsets j)),
              some st.position, some st.velocity, some st.torque,
              some st.mode, some st.fault]) ∧
    (∀ j, j + 1 < n →
      env.offsets j ≤ env.offsets (j + 1) ∧
      desired_position (env.offsets j) ≤ desired_position (env.offsets (j + 1))) := by
  rw [loop_run_eq env n 0 fuel
      (fun j hj => by simpa using hle j hj)
      (fun j hj => by simpa using hok j hj)
      (fun j hj => by simpa using hw j hj)
      (by simpa using hgt) hstop hfuel]
  constructor
  · intro j hj
    obtain ⟨st, hst⟩ := hok j hj
    refine ⟨st, ?_⟩
    have hidx : (rowsFrom env 0 n)[j]? = some (rowOf env j) := by
      simp [rowsFrom, List.getElem?_map, List.getElem?_range hj]
    rw [hidx]
    unfold rowOf
    rw [hst]
    rfl
  · intro j hj
    exact ⟨hmono (by omega), desired_position_mono (hmono (by omega))⟩

/-- Witness for C10 at the run of `envPlateau`. -/
theorem c10_witness :
    (∃ st : Telemetry, (loop envPlateau 0 8).rows[0]? =
      some [some (envPlateau.offsets 0),
            some (desired_position (envPlateau.offsets 0)),
            some st.position, some st.velocity, some st.torque,
            some st.mode, some st.fault]) ∧
    (envPlateau.offsets 0 ≤ envPlateau.offsets 1 ∧
      desired_position (envPlateau.offsets 0) ≤
        desired_position (envPlateau.offsets 1)) := by
  have hmono : Monotone envPlateau.offsets := by
    intro a b hab
    dsimp [envPlateau]
    have hab2 : (a : ℚ) ≤ b := by exact_mod_cast hab
    split_ifs with h1 h2 h3
    · linarith
    · have h6 : (a : ℚ) ≤ 6 := by exact_mod_cast Nat.lt_succ_iff.mp h1
      linarith
    · exact absurd (Nat.lt_of_le_of_lt hab h3) h1
    · exact le_refl _
  have h := c10_row_consistency envPlateau 7 8 hmono
    (fun j hj => by
      rw [envPlateau_offsets_lt j hj]
      have h6 : (j : ℚ) ≤ 6 := by exact_mod_cast Nat.lt_succ_iff.mp hj
      norm_num [stopThreshold, STEP_TIME_S, STEP_DIVISIONS]
      linarith)
    (fun _ _ => ⟨⟨0, 0, 0, 0, 0⟩, rfl⟩)
    (fun _ _ => rfl)
    (by norm_num [envPlateau, stopThreshold, STEP_TIME_S, STEP_DIVISIONS])
    rfl (by omega)
  exact ⟨h.1 0 (by omega), h.2 0 (by omega)⟩

end PositionSteps
